import Mathlib

/-!
Verification of the tag-parsing and co-occurrence aggregation core of the
fandom-data repository. The definitions below are shallow embeddings of the
Rust source: strings are lists of characters, `str::split` becomes `splitOn`,
`str::trim` becomes `trimChars`, `Vec::sort_unstable` on strings becomes an
insertion sort by code-point order (producing the same sorted result), and
fallible code returns `Except` / `Option` / the `Outcome` type (which also
models a Rust panic as a distinct terminal outcome).
-/

namespace FandomData

/-- Rust `&str` / `String`, modelled as a list of characters. -/
abbrev Str := List Char

/-- Rust `s.contains(d)` for a single-character pattern. -/
def containsChar (l : Str) (d : Char) : Bool :=
  match l with
  | [] => false
  | c :: cs => if c = d then true else containsChar cs d

/-- Auxiliary for `splitOn`: returns the first chunk and the remaining chunks. -/
def splitAux (p : Char → Bool) : Str → Str × List Str
  | [] => ([], [])
  | c :: cs =>
    let r := splitAux p cs
    if p c then ([], r.1 :: r.2) else (c :: r.1, r.2)

/-- Rust `str::split` on a character pattern: the list of chunks between
separator occurrences (always nonempty; empty input gives `[[]]`). -/
def splitOn (p : Char → Bool) (l : Str) : List Str :=
  (splitAux p l).1 :: (splitAux p l).2

/-- Rust `str::trim`: drop whitespace from both ends. -/
def trimChars (l : Str) : Str :=
  ((l.dropWhile Char.isWhitespace).reverse.dropWhile Char.isWhitespace).reverse

/-- Per-candidate cleanup in `vis.rs Ship::from_str`: truncate at the first
`(` (as with `name.find('(')` and reslicing) and then trim whitespace. -/
def cleanName (name : Str) : Str :=
  trimChars (name.takeWhile (fun c => c != '('))

/-- Lexicographic (code-point) comparison of strings, as Rust's `Ord` on
`String` orders valid UTF-8 byte sequences. -/
def charListLe : Str → Str → Bool
  | [], _ => true
  | _ :: _, [] => false
  | a :: as, b :: bs => if a < b then true else if b < a then false else charListLe as bs

/-- Ordered insertion used to model `Vec::sort_unstable` on strings. -/
def insertSortedName (x : Str) : List Str → List Str
  | [] => [x]
  | y :: ys => if charListLe x y then x :: y :: ys else y :: insertSortedName x ys

/-- Model of `Vec::sort_unstable` on a vector of strings: the unique sorted
rearrangement, obtained here by insertion sort. -/
def sortNames (l : List Str) : List Str := l.foldr insertSortedName []

/-- `ShipKind` of `vis.rs` (named `Ship` in `ships.rs`): the relationship
kind encoded by the tag's delimiter. -/
inductive ShipKind where
  | Romantic
  | Platonic
deriving DecidableEq, Repr

/-- `Ship` of `vis.rs`: sorted character names plus the relationship kind. -/
structure Ship where
  characters : List Str
  kind : ShipKind
deriving DecidableEq, Repr

/-- The single failure case of `vis.rs Ship::from_str`
(`anyhow!("Unknown ship kind in: '{}'")`). -/
inductive ShipError where
  | unknownShipKind
deriving DecidableEq, Repr

/-- Delimiter/kind choice at the top of `vis.rs Ship::from_str`:
`/` (Romantic) is checked before `&` (Platonic). -/
def chooseDelim (ship : Str) : Option (Char × ShipKind) :=
  if containsChar ship '/' then some ('/', ShipKind.Romantic)
  else if containsChar ship '&' then some ('&', ShipKind.Platonic)
  else none

/-- `vis.rs Ship::from_str`: pick the delimiter, split, strip fandom
qualifiers, trim, and sort the resulting character names. -/
def shipFromStr (ship : Str) : Except ShipError Ship :=
  match chooseDelim ship with
  | none => Except.error ShipError.unknownShipKind
  | some dk =>
    Except.ok { characters := sortNames ((splitOn (fun c => c == dk.1) ship).map cleanName),
                kind := dk.2 }

example : shipFromStr "Alice/Bob".data =
    Except.ok ⟨["Alice".data, "Bob".data], ShipKind.Romantic⟩ := rfl

example : shipFromStr " Bob / Alice ".data =
    Except.ok ⟨["Alice".data, "Bob".data], ShipKind.Romantic⟩ := rfl

example : shipFromStr "Alice (Wonderland)/Bob (Wonderland)".data =
    shipFromStr "Alice/Bob".data := rfl

example : shipFromStr "A & B".data = Except.ok ⟨["A".data, "B".data], ShipKind.Platonic⟩ := rfl

example : shipFromStr "AB".data = Except.error ShipError.unknownShipKind := rfl

example : shipFromStr "A/B & C".data =
    Except.ok ⟨["A".data, "B & C".data], ShipKind.Romantic⟩ := rfl

example : shipFromStr "/Bob".data = Except.ok ⟨[[], "Bob".data], ShipKind.Romantic⟩ := rfl

/-! ## The co-occurrence aggregator of `vis.rs main` -/

/-- Why a parsed tag is dropped by the `filter_map` in `vis.rs main`:
either `Ship::from_str` failed, or the ship did not have exactly two
characters (`anyhow!("Ship must have exactly two characters: ...")`). -/
inductive VisDropError where
  | parseFailed (e : ShipError)
  | wrongArity
deriving DecidableEq, Repr

/-- The `Ship::from_str(..).and_then(..)` chain in `vis.rs main` that keeps a
ship only when it has exactly two characters. -/
def visKeepShip (tag : Str) : Except VisDropError Ship :=
  match shipFromStr tag with
  | Except.error e => Except.error (VisDropError.parseFailed e)
  | Except.ok s =>
    if s.characters.length = 2 then Except.ok s else Except.error VisDropError.wrongArity

/-- The retained `(ship, count)` list of `vis.rs main`: drop tags that fail
to parse or have the wrong arity, then keep only the requested kind. -/
def visFreqs (kindFilter : ShipKind) (results : List (Str × Nat)) : List (Ship × Nat) :=
  (results.filterMap (fun r => (visKeepShip r.1).toOption.map (fun s => (s, r.2)))).filter
    (fun sc => sc.1.kind = kindFilter)

/-- All character occurrences across the retained ships (the nested `for`
loops feeding the `HashSet` in `vis.rs main`). -/
def allShipCharacters (freqs : List (Ship × Nat)) : List Str :=
  freqs.foldr (fun sc acc => sc.1.characters ++ acc) []

/-- Sorted insertion skipping duplicates; folding it models
`HashSet` collection followed by `sort_unstable` (a sorted, deduplicated
list of names). -/
def insertUnique (x : Str) : List Str → List Str
  | [] => [x]
  | y :: ys =>
    if x = y then y :: ys
    else if charListLe x y then x :: y :: ys
    else y :: insertUnique x ys

/-- The `names` list of `vis.rs main`: sorted, deduplicated character names
of all retained ships. -/
def visNames (freqs : List (Ship × Nat)) : List Str :=
  (allShipCharacters freqs).foldr insertUnique []

/-- The `character_index` lookup of `vis.rs main`: position of a name in the
(deduplicated) `names` list. -/
def idxOf (l : List Str) (x : Str) : Nat :=
  match l with
  | [] => 0
  | y :: ys => if y = x then 0 else idxOf ys x + 1

/-- Matrix entry read, `matrix[i][j]` (0 outside the allocated square). -/
def mget (m : List (List Nat)) (i j : Nat) : Nat := (m.getD i []).getD j 0

/-- `matrix[i][j] += c`. -/
def maddAt (m : List (List Nat)) (i j c : Nat) : List (List Nat) :=
  m.set i ((m.getD i []).set j (mget m i j + c))

/-- One iteration of the matrix loop in `vis.rs main`: add the count at both
`(i, j)` and `(j, i)` for the ship's two characters. -/
def visMatrixStep (names : List Str) (m : List (List Nat)) (sc : Ship × Nat) :
    List (List Nat) :=
  let i := idxOf names (sc.1.characters.getD 0 [])
  let j := idxOf names (sc.1.characters.getD 1 [])
  maddAt (maddAt m i j sc.2) j i sc.2

/-- `vec![vec![0.; n]; n]`. Counts are modelled as naturals: the `f64`
additions in the source are exact on these integer-valued accumulations. -/
def zeroMatrix (n : Nat) : List (List Nat) := List.replicate n (List.replicate n 0)

/-- The whole co-occurrence matrix construction of `vis.rs main`. -/
def visMatrix (kindFilter : ShipKind) (results : List (Str × Nat)) : List (List Nat) :=
  let freqs := visFreqs kindFilter results
  let names := visNames freqs
  freqs.foldl (visMatrixStep names) (zeroMatrix names.length)

example : visNames (visFreqs ShipKind.Romantic [("Alice/Bob".data, 3)]) =
    ["Alice".data, "Bob".data] := rfl

example : visMatrix ShipKind.Romantic [("Alice/Bob".data, 3), ("Bob/Alice".data, 5)] =
    [[0, 8], [8, 0]] := rfl

example : mget (visMatrix ShipKind.Romantic [("Alice/Alice".data, 1)]) 0 0 = 2 := rfl

/-! ## The older aggregator of `ships.rs` -/

/-- `ships.rs ship_to_characters`: truncate the whole tag at the first `(`,
split on either `/` or `&`, trim each candidate, require exactly two
candidates, sort them, and classify the kind (`/` checked before `&`). -/
def shipToCharacters (originalShip : Str) : Option ((Str × Str) × ShipKind) :=
  let ship := originalShip.takeWhile (fun c => c != '(')
  let characters := (splitOn (fun c => c == '/' || c == '&') ship).map trimChars
  if characters.length = 2 then
    let sorted := sortNames characters
    let pair := (sorted.getD 0 [], sorted.getD 1 [])
    if containsChar ship '/' then some (pair, ShipKind.Romantic)
    else if containsChar ship '&' then some (pair, ShipKind.Platonic)
    else none
  else none

/-- The retained frequency list of `ships.rs main` before deduplication. -/
def shipsFreqs (kindFilter : ShipKind) (results : List (Str × Nat)) :
    List (((Str × Str) × ShipKind) × Nat) :=
  (results.filterMap (fun r => (shipToCharacters r.1).map (fun s => (s, r.2)))).filter
    (fun sc => sc.1.2 = kindFilter)

/-- `u64::MAX`, used by `ships.rs main` to sort counts in descending order. -/
def U64MAX : Nat := 18446744073709551615

/-- Comparison of `(String, String)` pairs by Rust's derived lexicographic
order. -/
def pairLe (a b : Str × Str) : Bool :=
  if a.1 = b.1 then charListLe a.2 b.2 else charListLe a.1 b.1

/-- The `sort_by_key(|(ship, count)| (ship.0.clone(), u64::MAX - count))` key
order of `ships.rs main`. -/
def shipsKeyLe (x y : (((Str × Str) × ShipKind) × Nat)) : Bool :=
  if x.1.1 = y.1.1 then decide (U64MAX - x.2 ≤ U64MAX - y.2) else pairLe x.1.1 y.1.1

/-- Ordered insertion by the `ships.rs` sort key. -/
def insertByShipsKey (x : (((Str × Str) × ShipKind) × Nat)) :
    List (((Str × Str) × ShipKind) × Nat) → List (((Str × Str) × ShipKind) × Nat)
  | [] => [x]
  | y :: ys => if shipsKeyLe x y then x :: y :: ys else y :: insertByShipsKey x ys

/-- The `sort_by_key` call of `ships.rs main`, as an insertion sort. -/
def shipsSort (l : List (((Str × Str) × ShipKind) × Nat)) :
    List (((Str × Str) × ShipKind) × Nat) :=
  l.foldr insertByShipsKey []

/-- Auxiliary for `shipsDedup`: `a` is the first entry of the current run of
equal keys; later entries of the run are skipped. -/
def shipsDedupAux (a : ((Str × Str) × ShipKind) × Nat) :
    List (((Str × Str) × ShipKind) × Nat) → List (((Str × Str) × ShipKind) × Nat)
  | [] => [a]
  | b :: rest =>
    if b.1.1 = a.1.1 then shipsDedupAux a rest else a :: shipsDedupAux b rest

/-- `Vec::dedup_by_key(|(ship, _count)| ship.0.clone())`: drop consecutive
entries with the same character pair, keeping the first of each run. -/
def shipsDedup : List (((Str × Str) × ShipKind) × Nat) →
    List (((Str × Str) × ShipKind) × Nat)
  | [] => []
  | a :: rest => shipsDedupAux a rest

/-- The character occurrences of the deduplicated `ships.rs` frequency list
(feeding the `characters` count map whose keys become the name list). -/
def shipsAllCharacters (freqs : List (((Str × Str) × ShipKind) × Nat)) : List Str :=
  freqs.foldr (fun sc acc => sc.1.1.1 :: sc.1.1.2 :: acc) []

/-- The sorted name list of `ships.rs main`. -/
def shipsNames (freqs : List (((Str × Str) × ShipKind) × Nat)) : List Str :=
  (shipsAllCharacters freqs).foldr insertUnique []

/-- `matrix[i][j] = v` — note assignment, not addition, in `ships.rs main`. -/
def msetTo (m : List (List Nat)) (i j v : Nat) : List (List Nat) :=
  m.set i ((m.getD i []).set j v)

/-- One iteration of the matrix loop in `ships.rs main`: the count is
written (not added) to both cells. -/
def shipsMatrixStep (names : List Str) (m : List (List Nat))
    (sc : (((Str × Str) × ShipKind) × Nat)) : List (List Nat) :=
  let i := idxOf names sc.1.1.1
  let j := idxOf names sc.1.1.2
  msetTo (msetTo m i j sc.2) j i sc.2

/-- The whole matrix construction of `ships.rs main`: parse and filter, sort
by (pair, descending count), deduplicate keeping the highest count, then
write each retained count into both cells. -/
def shipsMatrix (kindFilter : ShipKind) (results : List (Str × Nat)) : List (List Nat) :=
  let freqs := shipsDedup (shipsSort (shipsFreqs kindFilter results))
  let names := shipsNames freqs
  freqs.foldl (shipsMatrixStep names) (zeroMatrix names.length)

example : shipsDedup (shipsSort (shipsFreqs ShipKind.Romantic
    [("Alice/Bob".data, 3), ("Bob/Alice".data, 5)])) =
    [((("Alice".data, "Bob".data), ShipKind.Romantic), 5)] := rfl

example : shipsMatrix ShipKind.Romantic [("Alice/Bob".data, 3), ("Bob/Alice".data, 5)] =
    [[0, 5], [5, 0]] := rfl

/-! ## The page extractor of `scrape.rs`

The HTML parsing library is abstracted away: a `WorkElement` records, for
each CSS selector used by `search_page_to_works`, the sequence of matched
elements, each carrying its first text node (`none` when the element has no
text). The extraction logic over those selector results is translated
faithfully, including the `.expect(..)` on the date parse, which is a Rust
panic and is therefore modelled as a third terminal outcome. -/

/-- Result of running a piece of extraction code: success, an `anyhow` error
carrying its context chain (outermost context first), or a panic. -/
inductive Outcome (α : Type) where
  | ok (a : α)
  | err (contexts : List Str)
  | panic (msg : Str)
deriving DecidableEq, Repr

/-- Rust `?` / `and_then` on `anyhow::Result`, with panics propagating. -/
def obind {α β : Type} : Outcome α → (α → Outcome β) → Outcome β
  | Outcome.ok a, f => f a
  | Outcome.err e, _ => Outcome.err e
  | Outcome.panic m, _ => Outcome.panic m

/-- `anyhow` `.context(..)`: wrap an error with an outer context message. -/
def withContext {α : Type} (c : Str) : Outcome α → Outcome α
  | Outcome.err msgs => Outcome.err (c :: msgs)
  | o => o

/-- Rust `Result::ok()`. -/
def Outcome.toOption {α : Type} : Outcome α → Option α
  | Outcome.ok a => some a
  | _ => none

/-- Rust `Result::unwrap_or(d)`. -/
def Outcome.getD {α : Type} : Outcome α → α → α
  | Outcome.ok a, _ => a
  | _, d => d

/-- `SelectExt::next_text`: first matched element's first text, failing when
no element matches or the element has no text. -/
def nextText (elems : List (Option Str)) : Outcome Str :=
  match elems with
  | [] => Outcome.err ["selector to find element".data]
  | none :: _ => Outcome.err ["element to have text".data]
  | some t :: _ => Outcome.ok t

/-- Digit-string to number (the semantics of Rust's `str::parse` on the
digits themselves). -/
def digitsToNat (s : Str) : Nat := s.foldl (fun n c => n * 10 + (c.toNat - 48)) 0

/-- Rust `str::parse::<u32>()`: optional leading `+`, at least one digit,
all digits, value within `u32` range. -/
def parseU32 (s : Str) : Option Nat :=
  let t := match s with
           | '+' :: rest => rest
           | _ => s
  if t.isEmpty then none
  else if t.all Char.isDigit then
    let v := digitsToNat t
    if v < 4294967296 then some v else none
  else none

/-- `SelectExt::next_number`: take the element's text, remove every `,`
(`replace(",", "")`), and parse as `u32`. -/
def nextNumber (elems : List (Option Str)) : Outcome Nat :=
  obind (nextText elems) fun t =>
    match parseU32 (t.filter (fun c => c != ',')) with
    | some n => Outcome.ok n
    | none => Outcome.err ["failed to parse number".data]

/-- `SelectExt::collect_texts`: every matched element's first text, failing
at the first element with no text. -/
def collectTexts (elems : List (Option Str)) : Outcome (List Str) :=
  match elems with
  | [] => Outcome.ok []
  | none :: _ => Outcome.err ["element to have text".data]
  | some t :: rest => obind (collectTexts rest) fun ts => Outcome.ok (t :: ts)

/-- `chrono::NaiveDate`, reduced to its calendar fields. -/
structure NaiveDate where
  day : Nat
  month : Nat
  year : Int
deriving DecidableEq, Repr

/-- Month number of an English month abbreviation (`%b`). -/
def monthOfAbbrev (s : Str) : Option Nat :=
  if s = "Jan".data then some 1
  else if s = "Feb".data then some 2
  else if s = "Mar".data then some 3
  else if s = "Apr".data then some 4
  else if s = "May".data then some 5
  else if s = "Jun".data then some 6
  else if s = "Jul".data then some 7
  else if s = "Aug".data then some 8
  else if s = "Sep".data then some 9
  else if s = "Oct".data then some 10
  else if s = "Nov".data then some 11
  else if s = "Dec".data then some 12
  else none

/-- Gregorian leap-year rule. -/
def isLeapYear (y : Int) : Bool := y % 4 = 0 && (y % 100 ≠ 0 || y % 400 = 0)

/-- Number of days of a month. -/
def daysInMonth (y : Int) (m : Nat) : Nat :=
  if m = 2 then (if isLeapYear y then 29 else 28)
  else if m = 4 || m = 6 || m = 9 || m = 11 then 30
  else 31

/-- A nonempty all-digit string parsed as a natural number. -/
def parseNatDigits (s : Str) : Option Nat :=
  if s.isEmpty then none
  else if s.all Char.isDigit then some (digitsToNat s) else none

/-- Model of `NaiveDate::parse_from_str(text, "%d %b %Y")`: day, English
month abbreviation and year separated by single spaces, validated against
the calendar. -/
def parseDate (s : Str) : Option NaiveDate :=
  match splitOn (fun c => c == ' ') s with
  | [d, m, y] =>
    match parseNatDigits d, monthOfAbbrev m, parseNatDigits y with
    | some day, some month, some year =>
      if 1 ≤ day ∧ day ≤ daysInMonth (Int.ofNat year) month then
        some { day := day, month := month, year := Int.ofNat year }
      else none
    | _, _, _ => none
  | _ => none

/-- The `Work` record of `scrape.rs`. -/
structure Work where
  id : Str
  title : Str
  author : Option Str
  relationships : List Str
  characters : List Str
  freeforms : List Str
  date : NaiveDate
  language : Str
  words : Nat
  kudos : Nat
  hits : Nat
deriving DecidableEq, Repr

/-- One `li.work` element, abstracted to the selector results that
`search_page_to_works` reads: the `id` attribute, and per selector the
matched elements with their first text node. -/
structure WorkElement where
  id_attr : Option Str
  title_author : List (Option Str)
  relationships : List (Option Str)
  characters : List (Option Str)
  freeforms : List (Option Str)
  datetime : List (Option Str)
  language : List (Option Str)
  words : List (Option Str)
  kudos : List (Option Str)
  hits : List (Option Str)
deriving DecidableEq, Repr

/-- The semantics of Rust `str::strip_prefix`, used by the source on the id
attribute: remove the given leading pattern, or `None` when it is absent. -/
def stripLeading : Str → Str → Option Str
  | [], s => some s
  | _ :: _, [] => none
  | p :: ps, c :: cs => if c = p then stripLeading ps cs else none

/-- The id extraction of `search_page_to_works`: the `id` attribute must be
present and start with `work_`; the returned id is the remainder. -/
def idOutcome (w : WorkElement) : Outcome Str :=
  match w.id_attr with
  | none => Outcome.err ["work to have id".data]
  | some attr =>
    match stripLeading "work_".data attr with
    | none => Outcome.err ["work id to have prefix".data]
    | some s => Outcome.ok s

/-- The per-listing body of `search_page_to_works`, in source order. The
date text that is present but fails to parse hits the source's
`.expect("unexpected date format")` and panics. -/
def extractWork (w : WorkElement) : Outcome Work :=
  obind (idOutcome w) fun id =>
  obind (withContext "title".data (nextText w.title_author)) fun title =>
  let author := (nextText (w.title_author.drop 1)).toOption
  obind (withContext "relationships".data (collectTexts w.relationships)) fun relationships =>
  obind (withContext "characters".data (collectTexts w.characters)) fun characters =>
  obind (withContext "freeforms".data (collectTexts w.freeforms)) fun freeforms =>
  obind (withContext "date".data (nextText w.datetime)) fun dateText =>
  match parseDate dateText with
  | none => Outcome.panic "unexpected date format".data
  | some date =>
    let language := (nextText w.language).getD []
    let words := (nextNumber w.words).getD 0
    let kudos := (nextNumber w.kudos).getD 0
    let hits := (nextNumber w.hits).getD 0
    Outcome.ok { id := id, title := title, author := author,
                 relationships := relationships, characters := characters,
                 freeforms := freeforms, date := date, language := language,
                 words := words, kudos := kudos, hits := hits }

/-- `search_page_to_works`: extract every `li.work` element in page order,
failing fast on the first error (the `collect::<Result<_>>`). -/
def searchPageToWorks (page : List WorkElement) : Outcome (List Work) :=
  match page with
  | [] => Outcome.ok []
  | e :: rest =>
    obind (extractWork e) fun w =>
    obind (searchPageToWorks rest) fun ws =>
    Outcome.ok (w :: ws)

/-- A fully well-formed listing used as the base of concrete test pages. -/
def goodElement : WorkElement :=
  { id_attr := some "work_123".data
    title_author := [some "A Title".data, some "An Author".data]
    relationships := [some "Alice/Bob".data]
    characters := [some "Alice".data]
    freeforms := []
    datetime := [some "05 Dec 2020".data]
    language := [some "English".data]
    words := [some "1,000".data]
    kudos := [some "1,234".data]
    hits := [some "99".data] }

/-- The `Work` that `goodElement` extracts to. -/
def goodWork : Work :=
  { id := "123".data
    title := "A Title".data
    author := some "An Author".data
    relationships := ["Alice/Bob".data]
    characters := ["Alice".data]
    freeforms := []
    date := { day := 5, month := 12, year := 2020 }
    language := "English".data
    words := 1000
    kudos := 1234
    hits := 99 }

example : searchPageToWorks [goodElement] = Outcome.ok [goodWork] := rfl

example : searchPageToWorks [{ goodElement with id_attr := none }] =
    Outcome.err ["work to have id".data] := rfl

example : searchPageToWorks [{ goodElement with datetime := [some "not a date".data] }] =
    Outcome.panic "unexpected date format".data := rfl

example : searchPageToWorks [{ goodElement with kudos := [some "12a".data] }] =
    Outcome.ok [{ goodWork with kudos := 0 }] := rfl

/-! ## Basic lemmas about the string primitives -/

theorem containsChar_iff_mem : ∀ (l : Str) (d : Char), containsChar l d = true ↔ d ∈ l
  | [], d => by simp [containsChar]
  | c :: cs, d => by
    by_cases h : c = d
    · subst h; simp [containsChar]
    · simp only [containsChar, if_neg h, containsChar_iff_mem cs d, List.mem_cons]
      constructor
      · exact Or.inr
      · rintro (rfl | hm)
        · exact absurd rfl h
        · exact hm

theorem containsChar_false_notMem {l : Str} {d : Char} (h : containsChar l d = false) :
    d ∉ l := by
  intro hm
  rw [← containsChar_iff_mem] at hm
  rw [h] at hm
  exact Bool.noConfusion hm

theorem containsChar_append : ∀ (xs ys : Str) (d : Char),
    containsChar (xs ++ ys) d = (containsChar xs d || containsChar ys d)
  | [], ys, d => rfl
  | c :: cs, ys, d => by
    by_cases h : c = d
    · simp [containsChar, h]
    · simp [containsChar, h, containsChar_append cs ys d]

theorem splitAux_append_no (p : Char → Bool) :
    ∀ (xs ys : Str), (∀ c ∈ xs, p c = false) →
      splitAux p (xs ++ ys) = (xs ++ (splitAux p ys).1, (splitAux p ys).2)
  | [], ys, _ => rfl
  | c :: cs, ys, h => by
    have hc : p c = false := h c (List.mem_cons_self c cs)
    have ih := splitAux_append_no p cs ys (fun a ha => h a (List.mem_cons_of_mem c ha))
    simp [splitAux, hc, ih]

theorem splitAux_delim (p : Char → Bool) (d : Char) (ys : Str) (hd : p d = true) :
    splitAux p (d :: ys) = ([], (splitAux p ys).1 :: (splitAux p ys).2) := by
  simp [splitAux, hd]

theorem splitOn_no (p : Char → Bool) (xs : Str) (h : ∀ c ∈ xs, p c = false) :
    splitOn p xs = [xs] := by
  have := splitAux_append_no p xs [] h
  rw [List.append_nil] at this
  simp [splitOn, this, splitAux]

theorem splitOn_append_delim (p : Char → Bool) (xs : Str) (d : Char) (ys : Str)
    (hxs : ∀ c ∈ xs, p c = false) (hd : p d = true) :
    splitOn p (xs ++ d :: ys) = xs :: splitOn p ys := by
  have h1 := splitAux_append_no p xs (d :: ys) hxs
  rw [splitAux_delim p d ys hd] at h1
  simp [splitOn, h1]

theorem getD_oob {α : Type} : ∀ (l : List α) (i : Nat) (d : α), l.length ≤ i → l.getD i d = d
  | [], 0, _, _ => rfl
  | [], _ + 1, _, _ => rfl
  | _ :: _, 0, _, h => absurd h (by simp)
  | _ :: l, i + 1, d, h => getD_oob l i d (Nat.le_of_succ_le_succ h)

theorem getD_replicate_lt {α : Type} :
    ∀ (n i : Nat) (x d : α), i < n → (List.replicate n x).getD i d = x
  | 0, i, _, _, h => absurd h (Nat.not_lt_zero i)
  | _ + 1, 0, _, _, _ => rfl
  | n + 1, i + 1, x, d, h => getD_replicate_lt n i x d (Nat.lt_of_succ_lt_succ h)

theorem getD_set_self {α : Type} : ∀ (l : List α) (j : Nat) (v d : α), j < l.length →
    (l.set j v).getD j d = v
  | [], j, _, _, h => absurd h (by simp)
  | _ :: _, 0, _, _, _ => rfl
  | _ :: l, j + 1, v, d, h => getD_set_self l j v d (Nat.lt_of_succ_lt_succ h)

theorem getD_set_ne {α : Type} : ∀ (l : List α) (i j : Nat) (v d : α), i ≠ j →
    (l.set i v).getD j d = l.getD j d
  | [], _, _, _, _, _ => rfl
  | _ :: _, 0, 0, _, _, h => absurd rfl h
  | _ :: _, 0, _ + 1, _, _, _ => rfl
  | _ :: _, _ + 1, 0, _, _, _ => rfl
  | _ :: l, i + 1, j + 1, v, d, h =>
    getD_set_ne l i j v d (fun he => h (congrArg Nat.succ he))

/-! ## Lemmas about trimming and fandom-qualifier stripping -/

theorem dropWhile_all_nil (p : Char → Bool) :
    ∀ (l : Str), (∀ c ∈ l, p c = true) → List.dropWhile p l = []
  | [], _ => rfl
  | c :: cs, h => by
    rw [List.dropWhile_cons, if_pos (h c (List.mem_cons_self c cs))]
    exact dropWhile_all_nil p cs (fun a ha => h a (List.mem_cons_of_mem c ha))

theorem dropWhile_append_all (p : Char → Bool) :
    ∀ (xs ys : Str), (∀ c ∈ xs, p c = true) →
      List.dropWhile p (xs ++ ys) = List.dropWhile p ys
  | [], _, _ => rfl
  | c :: cs, ys, h => by
    rw [List.cons_append, List.dropWhile_cons, if_pos (h c (List.mem_cons_self c cs))]
    exact dropWhile_append_all p cs ys (fun a ha => h a (List.mem_cons_of_mem c ha))

theorem dropWhile_append_stay (p : Char → Bool) :
    ∀ (xs ys : Str), List.dropWhile p xs ≠ [] →
      List.dropWhile p (xs ++ ys) = List.dropWhile p xs ++ ys
  | [], _, h => absurd rfl h
  | c :: cs, ys, h => by
    by_cases hc : p c
    · rw [List.dropWhile_cons, if_pos hc] at h
      rw [List.cons_append, List.dropWhile_cons, if_pos hc, List.dropWhile_cons, if_pos hc]
      exact dropWhile_append_stay p cs ys h
    · rw [List.cons_append, List.dropWhile_cons, if_neg hc, List.dropWhile_cons, if_neg hc,
        List.cons_append]

theorem takeWhile_all_self (p : Char → Bool) :
    ∀ (l : Str), (∀ c ∈ l, p c = true) → List.takeWhile p l = l
  | [], _ => rfl
  | c :: cs, h => by
    rw [List.takeWhile_cons, if_pos (h c (List.mem_cons_self c cs))]
    rw [takeWhile_all_self p cs (fun a ha => h a (List.mem_cons_of_mem c ha))]

theorem takeWhile_append_all (p : Char → Bool) :
    ∀ (xs ys : Str), (∀ c ∈ xs, p c = true) →
      List.takeWhile p (xs ++ ys) = xs ++ List.takeWhile p ys
  | [], _, _ => rfl
  | c :: cs, ys, h => by
    rw [List.cons_append, List.takeWhile_cons, if_pos (h c (List.mem_cons_self c cs)),
      List.cons_append]
    rw [takeWhile_append_all p cs ys (fun a ha => h a (List.mem_cons_of_mem c ha))]

theorem takeWhile_append_stop (p : Char → Bool) :
    ∀ (xs ys : Str), List.takeWhile p xs ≠ xs →
      List.takeWhile p (xs ++ ys) = List.takeWhile p xs
  | [], _, h => absurd rfl h
  | c :: cs, ys, h => by
    by_cases hc : p c
    · rw [List.takeWhile_cons, if_pos hc] at h ⊢
      rw [List.cons_append, List.takeWhile_cons, if_pos hc]
      rw [takeWhile_append_stop p cs ys (fun he => h (by rw [he]))]
    · rw [List.takeWhile_cons, if_neg hc] at h ⊢
      rw [List.cons_append, List.takeWhile_cons, if_neg hc]

theorem mem_takeWhile_pred (p : Char → Bool) :
    ∀ (l : Str) (a : Char), a ∈ List.takeWhile p l → p a = true
  | [], a, h => absurd h (List.not_mem_nil a)
  | c :: cs, a, h => by
    by_cases hc : p c = true
    · rw [List.takeWhile_cons, if_pos hc] at h
      rcases List.mem_cons.mp h with rfl | hm
      · exact hc
      · exact mem_takeWhile_pred p cs a hm
    · rw [List.takeWhile_cons, if_neg hc] at h
      exact absurd h (List.not_mem_nil a)

theorem trimChars_pad (w x v : Str) (hw : ∀ c ∈ w, Char.isWhitespace c = true)
    (hv : ∀ c ∈ v, Char.isWhitespace c = true) : trimChars (w ++ (x ++ v)) = trimChars x := by
  unfold trimChars
  rw [dropWhile_append_all Char.isWhitespace w (x ++ v) hw]
  by_cases hx : List.dropWhile Char.isWhitespace x = []
  · have hall : ∀ c ∈ x, Char.isWhitespace c = true := by
      intro c hc
      have h1 := List.dropWhile_eq_nil_iff.mp hx c hc
      simpa using h1
    rw [dropWhile_append_all Char.isWhitespace x v hall,
      dropWhile_all_nil Char.isWhitespace v hv, hx]
  · rw [dropWhile_append_stay Char.isWhitespace x v hx, List.reverse_append,
      dropWhile_append_all Char.isWhitespace v.reverse _
        (fun c hc => hv c (List.mem_reverse.mp hc))]

theorem cleanName_pad (w x v : Str) (hw : ∀ c ∈ w, Char.isWhitespace c = true)
    (hv : ∀ c ∈ v, Char.isWhitespace c = true) : cleanName (w ++ (x ++ v)) = cleanName x := by
  unfold cleanName
  have hwp : ∀ c ∈ w, (c != '(') = true := by
    intro c hc
    have := hw c hc
    rcases Decidable.eq_or_ne c '(' with rfl | hne
    · exact absurd this (by decide)
    · simp [hne]
  have hvp : ∀ c ∈ v, (c != '(') = true := by
    intro c hc
    have := hv c hc
    rcases Decidable.eq_or_ne c '(' with rfl | hne
    · exact absurd this (by decide)
    · simp [hne]
  rw [takeWhile_append_all _ w (x ++ v) hwp]
  by_cases hx : List.takeWhile (fun c => c != '(') x = x
  · have hallx : ∀ c ∈ x, (c != '(') = true := by
      intro c hc
      have hmem : c ∈ List.takeWhile (fun c => c != '(') x := by rw [hx]; exact hc
      exact mem_takeWhile_pred _ x c hmem
    rw [takeWhile_append_all _ x v hallx, takeWhile_all_self _ v hvp, hx]
    exact trimChars_pad w x v hw hv
  · rw [takeWhile_append_stop _ x v hx]
    have := trimChars_pad w (List.takeWhile (fun c => c != '(') x) [] hw (by intro c hc; cases hc)
    rw [List.append_nil] at this
    exact this

/-! ## Lemmas about the name ordering and sorting -/

theorem charListLe_total : ∀ a b : Str, charListLe a b = true ∨ charListLe b a = true
  | [], _ => Or.inl rfl
  | _ :: _, [] => Or.inr rfl
  | a :: as, b :: bs => by
    rcases lt_trichotomy a b with h | h | h
    · left; simp [charListLe, h]
    · subst h
      rcases charListLe_total as bs with ih | ih
      · left; simp [charListLe, lt_irrefl, ih]
      · right; simp [charListLe, lt_irrefl, ih]
    · right; simp [charListLe, h]

theorem charListLe_antisymm : ∀ a b : Str,
    charListLe a b = true → charListLe b a = true → a = b
  | [], [], _, _ => rfl
  | [], _ :: _, _, h2 => by simp [charListLe] at h2
  | _ :: _, [], h1, _ => by simp [charListLe] at h1
  | a :: as, b :: bs, h1, h2 => by
    rcases lt_trichotomy a b with h | h | h
    · simp [charListLe, h, asymm h] at h2
    · subst h
      simp only [charListLe, lt_irrefl, if_neg (lt_irrefl a), if_false] at h1 h2
      rw [charListLe_antisymm as bs h1 h2]
    · simp [charListLe, h, asymm h] at h1

theorem sortNames_pair_comm (x y : Str) : sortNames [x, y] = sortNames [y, x] := by
  show insertSortedName x [y] = insertSortedName y [x]
  unfold insertSortedName
  by_cases hxy : charListLe x y = true
  · by_cases hyx : charListLe y x = true
    · rw [if_pos hxy, if_pos hyx, charListLe_antisymm x y hxy hyx]
    · rw [if_pos hxy, if_neg (by simp [hyx])]
      rfl
  · rcases charListLe_total x y with h | h
    · exact absurd h hxy
    · rw [if_neg (by simp [hxy]), if_pos h]
      rfl

theorem length_insertSortedName (x : Str) :
    ∀ l : List Str, (insertSortedName x l).length = l.length + 1
  | [] => rfl
  | y :: ys => by
    unfold insertSortedName
    by_cases h : charListLe x y = true
    · rw [if_pos h]; rfl
    · rw [if_neg h]
      simp [length_insertSortedName x ys]

theorem length_sortNames : ∀ l : List Str, (sortNames l).length = l.length
  | [] => rfl
  | x :: xs => by
    show (insertSortedName x (sortNames xs)).length = xs.length + 1
    rw [length_insertSortedName, length_sortNames xs]

theorem mem_insertUnique_self (x : Str) : ∀ l : List Str, x ∈ insertUnique x l
  | [] => List.mem_cons_self x []
  | y :: ys => by
    unfold insertUnique
    by_cases hxy : x = y
    · rw [if_pos hxy]; exact hxy ▸ List.mem_cons_self x ys
    · rw [if_neg hxy]
      by_cases hle : charListLe x y = true
      · rw [if_pos hle]; exact List.mem_cons_self x (y :: ys)
      · rw [if_neg hle]; exact List.mem_cons_of_mem y (mem_insertUnique_self x ys)

theorem mem_insertUnique_of_mem (x a : Str) :
    ∀ l : List Str, a ∈ l → a ∈ insertUnique x l
  | [], h => absurd h (List.not_mem_nil a)
  | y :: ys, h => by
    unfold insertUnique
    by_cases hxy : x = y
    · rw [if_pos hxy]; exact h
    · rw [if_neg hxy]
      by_cases hle : charListLe x y = true
      · rw [if_pos hle]; exact List.mem_cons_of_mem x h
      · rw [if_neg hle]
        rcases List.mem_cons.mp h with rfl | hm
        · exact List.mem_cons_self a (insertUnique x ys)
        · exact List.mem_cons_of_mem y (mem_insertUnique_of_mem x a ys hm)

theorem mem_foldr_insertUnique (x : Str) :
    ∀ l : List Str, x ∈ l → x ∈ l.foldr insertUnique []
  | [], h => absurd h (List.not_mem_nil x)
  | y :: ys, h => by
    rcases List.mem_cons.mp h with rfl | hm
    · exact mem_insertUnique_self x (ys.foldr insertUnique [])
    · exact mem_insertUnique_of_mem y x _ (mem_foldr_insertUnique x ys hm)

theorem idxOf_lt_of_mem : ∀ (l : List Str) (x : Str), x ∈ l → idxOf l x < l.length
  | [], x, h => absurd h (List.not_mem_nil x)
  | y :: ys, x, h => by
    unfold idxOf
    by_cases hyx : y = x
    · rw [if_pos hyx]; exact Nat.succ_pos _
    · rw [if_neg hyx]
      have hm : x ∈ ys := by
        rcases List.mem_cons.mp h with rfl | hm
        · exact absurd rfl hyx
        · exact hm
      exact Nat.succ_lt_succ (idxOf_lt_of_mem ys x hm)

theorem idxOf_inj : ∀ (l : List Str) (x y : Str), x ∈ l → y ∈ l →
    idxOf l x = idxOf l y → x = y
  | [], x, _, hx, _, _ => absurd hx (List.not_mem_nil x)
  | a :: as, x, y, hx, hy, h => by
    unfold idxOf at h
    by_cases hax : a = x
    · by_cases hay : a = y
      · rw [← hax, ← hay]
      · rw [if_pos hax, if_neg hay] at h
        exact absurd h.symm (Nat.succ_ne_zero _)
    · by_cases hay : a = y
      · rw [if_neg hax, if_pos hay] at h
        exact absurd h (Nat.succ_ne_zero _)
      · rw [if_neg hax, if_neg hay] at h
        have hmx : x ∈ as := by
          rcases List.mem_cons.mp hx with rfl | hm
          · exact absurd rfl hax
          · exact hm
        have hmy : y ∈ as := by
          rcases List.mem_cons.mp hy with rfl | hm
          · exact absurd rfl hay
          · exact hm
        exact idxOf_inj as x y hmx hmy (Nat.succ_injective h)

/-! ## Characterization of `Ship::from_str` on two-candidate romantic tags -/

theorem isWs_not_delim {d : Char} (hd : Char.isWhitespace d = false) {c : Char}
    (hc : Char.isWhitespace c = true) : (c == d) = false := by
  rcases Decidable.eq_or_ne c d with rfl | hne
  · rw [hc] at hd; exact Bool.noConfusion hd
  · simp [hne]

theorem not_delim_of_not_contains {l : Str} {d : Char} (h : containsChar l d = false) :
    ∀ c ∈ l, (c == d) = false := by
  intro c hc
  rcases Decidable.eq_or_ne c d with rfl | hne
  · exact absurd hc (containsChar_false_notMem h)
  · simp [hne]

theorem ws_not_slash {l : Str} (h : ∀ c ∈ l, Char.isWhitespace c = true) :
    ∀ c ∈ l, (c == '/') = false :=
  fun c hc => isWs_not_delim (by decide) (h c hc)

theorem pred_false_append {l1 l2 : Str} {p : Char → Bool}
    (h1 : ∀ c ∈ l1, p c = false) (h2 : ∀ c ∈ l2, p c = false) :
    ∀ c ∈ l1 ++ l2, p c = false := by
  intro c hc
  rcases List.mem_append.mp hc with h | h
  · exact h1 c h
  · exact h2 c h

theorem shipFromStr_pair (A B : Str)
    (hA : ∀ c ∈ A, (c == '/') = false) (hB : ∀ c ∈ B, (c == '/') = false) :
    shipFromStr (A ++ '/' :: B) =
      Except.ok ⟨sortNames [cleanName A, cleanName B], ShipKind.Romantic⟩ := by
  have hcontains : containsChar (A ++ '/' :: B) '/' = true := by
    rw [containsChar_append]
    simp [containsChar]
  have hchoose : chooseDelim (A ++ '/' :: B) = some ('/', ShipKind.Romantic) := by
    unfold chooseDelim
    rw [hcontains]
    rfl
  unfold shipFromStr
  rw [hchoose]
  show Except.ok (Ship.mk (sortNames (List.map cleanName
      (splitOn (fun c => c == '/') (A ++ '/' :: B)))) ShipKind.Romantic) =
    Except.ok (Ship.mk (sortNames [cleanName A, cleanName B]) ShipKind.Romantic)
  rw [splitOn_append_delim _ A '/' B hA rfl, splitOn_no _ B hB]
  rfl

theorem containsChar_cons_ne (c d : Char) (l : Str) (h : c ≠ d) :
    containsChar (c :: l) d = containsChar l d := by
  show (if c = d then true else containsChar l d) = containsChar l d
  rw [if_neg h]

theorem containsChar_false_of_pred {l : Str} {d : Char}
    (h : ∀ c ∈ l, (c == d) = false) : containsChar l d = false := by
  cases hcc : containsChar l d
  · rfl
  · have hm := (containsChar_iff_mem l d).mp hcc
    have h2 := h d hm
    simp at h2

theorem shipFromStr_pair_amp (A B : Str)
    (hA : ∀ c ∈ A, (c == '/') = false) (hB : ∀ c ∈ B, (c == '/') = false)
    (hA2 : ∀ c ∈ A, (c == '&') = false) (hB2 : ∀ c ∈ B, (c == '&') = false) :
    shipFromStr (A ++ '&' :: B) =
      Except.ok ⟨sortNames [cleanName A, cleanName B], ShipKind.Platonic⟩ := by
  have hnoslash : containsChar (A ++ '&' :: B) '/' = false := by
    rw [containsChar_append, containsChar_cons_ne '&' '/' B (by decide),
      containsChar_false_of_pred hA, containsChar_false_of_pred hB]
    rfl
  have hamp : containsChar (A ++ '&' :: B) '&' = true := by
    rw [containsChar_append]
    simp [containsChar]
  have hchoose : chooseDelim (A ++ '&' :: B) = some ('&', ShipKind.Platonic) := by
    unfold chooseDelim
    rw [hnoslash, hamp]
    rfl
  unfold shipFromStr
  rw [hchoose]
  show Except.ok (Ship.mk (sortNames (List.map cleanName
      (splitOn (fun c => c == '&') (A ++ '&' :: B)))) ShipKind.Platonic) =
    Except.ok (Ship.mk (sortNames [cleanName A, cleanName B]) ShipKind.Platonic)
  rw [splitOn_append_delim _ A '&' B hA2 rfl, splitOn_no _ B hB2]
  rfl

theorem cleanName_paren (x g : Str) (hx : containsChar x '(' = false) :
    cleanName (x ++ '(' :: g) = cleanName x := by
  unfold cleanName
  have hxp : ∀ c ∈ x, (c != '(') = true := by
    intro c hc
    have hne : c ≠ '(' := fun he => containsChar_false_notMem hx (he ▸ hc)
    simp [hne]
  rw [takeWhile_append_all _ x ('(' :: g) hxp, List.takeWhile_cons, if_neg (by decide),
    List.append_nil, takeWhile_all_self _ x hxp]

theorem all_ws_mem {l : Str} (h : l.all Char.isWhitespace = true) :
    ∀ c ∈ l, Char.isWhitespace c = true := by
  intro c hc
  have h1 := List.all_eq_true.mp h c hc
  simpa using h1

/-- Kind of a successfully parsed ship, `none` on a parse failure. -/
def shipKindOf : Except ShipError Ship → Option ShipKind
  | Except.ok s => some s.kind
  | Except.error _ => none

/-! ## Claims C5 to C8 -/

/-- C5: two raw relationship tags that differ only in the order of the two
character names or in surrounding whitespace parse to equal `Ship` values
(`vis.rs Ship::from_str`). The first conjunct swaps the character order, the
second keeps it; the `wi`/`vi` paddings are arbitrary whitespace runs. -/
theorem c5_canonicalization (c1 c2 w1 w2 w3 w4 v1 v2 v3 v4 : Str)
    (h1 : containsChar c1 '/' = false) (h2 : containsChar c2 '/' = false)
    (hw1 : w1.all Char.isWhitespace = true) (hw2 : w2.all Char.isWhitespace = true)
    (hw3 : w3.all Char.isWhitespace = true) (hw4 : w4.all Char.isWhitespace = true)
    (hv1 : v1.all Char.isWhitespace = true) (hv2 : v2.all Char.isWhitespace = true)
    (hv3 : v3.all Char.isWhitespace = true) (hv4 : v4.all Char.isWhitespace = true) :
    shipFromStr ((w1 ++ (c1 ++ w2)) ++ '/' :: (w3 ++ (c2 ++ w4))) =
        shipFromStr ((v1 ++ (c2 ++ v2)) ++ '/' :: (v3 ++ (c1 ++ v4))) ∧
    shipFromStr ((w1 ++ (c1 ++ w2)) ++ '/' :: (w3 ++ (c2 ++ w4))) =
        shipFromStr ((v1 ++ (c1 ++ v2)) ++ '/' :: (v3 ++ (c2 ++ v4))) ∧
    (containsChar c1 '&' = false → containsChar c2 '&' = false →
      shipFromStr ((w1 ++ (c1 ++ w2)) ++ '&' :: (w3 ++ (c2 ++ w4))) =
        shipFromStr ((v1 ++ (c2 ++ v2)) ++ '&' :: (v3 ++ (c1 ++ v4)))) := by
  have hA : ∀ c ∈ w1 ++ (c1 ++ w2), (c == '/') = false :=
    pred_false_append (ws_not_slash (all_ws_mem hw1))
      (pred_false_append (not_delim_of_not_contains h1) (ws_not_slash (all_ws_mem hw2)))
  have hB : ∀ c ∈ w3 ++ (c2 ++ w4), (c == '/') = false :=
    pred_false_append (ws_not_slash (all_ws_mem hw3))
      (pred_false_append (not_delim_of_not_contains h2) (ws_not_slash (all_ws_mem hw4)))
  have hC : ∀ c ∈ v1 ++ (c2 ++ v2), (c == '/') = false :=
    pred_false_append (ws_not_slash (all_ws_mem hv1))
      (pred_false_append (not_delim_of_not_contains h2) (ws_not_slash (all_ws_mem hv2)))
  have hD : ∀ c ∈ v3 ++ (c1 ++ v4), (c == '/') = false :=
    pred_false_append (ws_not_slash (all_ws_mem hv3))
      (pred_false_append (not_delim_of_not_contains h1) (ws_not_slash (all_ws_mem hv4)))
  have hE : ∀ c ∈ v1 ++ (c1 ++ v2), (c == '/') = false :=
    pred_false_append (ws_not_slash (all_ws_mem hv1))
      (pred_false_append (not_delim_of_not_contains h1) (ws_not_slash (all_ws_mem hv2)))
  have hF : ∀ c ∈ v3 ++ (c2 ++ v4), (c == '/') = false :=
    pred_false_append (ws_not_slash (all_ws_mem hv3))
      (pred_false_append (not_delim_of_not_contains h2) (ws_not_slash (all_ws_mem hv4)))
  refine ⟨?_, ?_, ?_⟩
  · rw [shipFromStr_pair _ _ hA hB, shipFromStr_pair _ _ hC hD,
      cleanName_pad w1 c1 w2 (all_ws_mem hw1) (all_ws_mem hw2),
      cleanName_pad w3 c2 w4 (all_ws_mem hw3) (all_ws_mem hw4),
      cleanName_pad v1 c2 v2 (all_ws_mem hv1) (all_ws_mem hv2),
      cleanName_pad v3 c1 v4 (all_ws_mem hv3) (all_ws_mem hv4),
      sortNames_pair_comm]
  · rw [shipFromStr_pair _ _ hA hB, shipFromStr_pair _ _ hE hF,
      cleanName_pad w1 c1 w2 (all_ws_mem hw1) (all_ws_mem hw2),
      cleanName_pad w3 c2 w4 (all_ws_mem hw3) (all_ws_mem hw4),
      cleanName_pad v1 c1 v2 (all_ws_mem hv1) (all_ws_mem hv2),
      cleanName_pad v3 c2 v4 (all_ws_mem hv3) (all_ws_mem hv4)]
  · intro ha1 ha2
    have ws_not_amp : ∀ {l : Str}, (∀ c ∈ l, Char.isWhitespace c = true) →
        ∀ c ∈ l, (c == '&') = false :=
      fun h c hc => isWs_not_delim (by decide) (h c hc)
    have hA2 : ∀ c ∈ w1 ++ (c1 ++ w2), (c == '&') = false :=
      pred_false_append (ws_not_amp (all_ws_mem hw1))
        (pred_false_append (not_delim_of_not_contains ha1) (ws_not_amp (all_ws_mem hw2)))
    have hB2 : ∀ c ∈ w3 ++ (c2 ++ w4), (c == '&') = false :=
      pred_false_append (ws_not_amp (all_ws_mem hw3))
        (pred_false_append (not_delim_of_not_contains ha2) (ws_not_amp (all_ws_mem hw4)))
    have hC2 : ∀ c ∈ v1 ++ (c2 ++ v2), (c == '&') = false :=
      pred_false_append (ws_not_amp (all_ws_mem hv1))
        (pred_false_append (not_delim_of_not_contains ha2) (ws_not_amp (all_ws_mem hv2)))
    have hD2 : ∀ c ∈ v3 ++ (c1 ++ v4), (c == '&') = false :=
      pred_false_append (ws_not_amp (all_ws_mem hv3))
        (pred_false_append (not_delim_of_not_contains ha1) (ws_not_amp (all_ws_mem hv4)))
    rw [shipFromStr_pair_amp _ _ hA hB hA2 hB2, shipFromStr_pair_amp _ _ hC hD hC2 hD2,
      cleanName_pad w1 c1 w2 (all_ws_mem hw1) (all_ws_mem hw2),
      cleanName_pad w3 c2 w4 (all_ws_mem hw3) (all_ws_mem hw4),
      cleanName_pad v1 c2 v2 (all_ws_mem hv1) (all_ws_mem hv2),
      cleanName_pad v3 c1 v4 (all_ws_mem hv3) (all_ws_mem hv4),
      sortNames_pair_comm]

/-- Witness for C5 at the spec's example pair, plus a platonic order swap. -/
theorem c5_canonicalization_witness :
    shipFromStr "Alice/Bob".data = shipFromStr " Bob / Alice ".data ∧
    shipFromStr "A & B".data = shipFromStr "B & A".data :=
  ⟨(c5_canonicalization "Alice".data "Bob".data [] [] [] [] " ".data " ".data " ".data " ".data
      (by decide) (by decide) rfl rfl rfl rfl (by decide) (by decide) (by decide) (by decide)).1,
   (c5_canonicalization "A".data "B".data [] " ".data " ".data [] [] " ".data " ".data []
      (by decide) (by decide) rfl (by decide) (by decide) rfl rfl (by decide) (by decide) rfl).2.2
     (by decide) (by decide)⟩

/-- C6: the ship parser classifies by delimiter with `/` checked before `&`:
a tag containing `/` parses Romantic, a tag containing `&` but no `/` parses
Platonic, and a tag containing neither fails with the unknown-ship-kind
error (`vis.rs Ship::from_str`). -/
theorem c6_delimiter_priority (tag : Str) :
    (containsChar tag '/' = true →
      shipKindOf (shipFromStr tag) = some ShipKind.Romantic) ∧
    (containsChar tag '/' = false → containsChar tag '&' = true →
      shipKindOf (shipFromStr tag) = some ShipKind.Platonic) ∧
    (containsChar tag '/' = false → containsChar tag '&' = false →
      shipFromStr tag = Except.error ShipError.unknownShipKind) := by
  refine ⟨?_, ?_, ?_⟩
  · intro h
    unfold shipFromStr chooseDelim
    rw [h]
    rfl
  · intro h1 h2
    unfold shipFromStr chooseDelim
    rw [h1, h2]
    rfl
  · intro h1 h2
    unfold shipFromStr chooseDelim
    rw [h1, h2]
    rfl

/-- Witness for C6: a mixed tag is Romantic, an `&`-only tag is Platonic, a
delimiterless tag is an unknown-ship-kind failure. -/
theorem c6_delimiter_priority_witness :
    shipKindOf (shipFromStr "A/B & C".data) = some ShipKind.Romantic ∧
    shipKindOf (shipFromStr "A & B".data) = some ShipKind.Platonic ∧
    shipFromStr "AB".data = Except.error ShipError.unknownShipKind :=
  ⟨(c6_delimiter_priority "A/B & C".data).1 rfl,
   (c6_delimiter_priority "A & B".data).2.1 rfl rfl,
   (c6_delimiter_priority "AB".data).2.2 rfl rfl⟩

/-- C7: a tag whose split yields other than exactly two candidates is
rejected by the `vis.rs main` filter as a wrong-arity failure and the tag is
dropped from aggregation, which continues over the surrounding input. -/
theorem c7_arity_rejection (tag : Str) (d : Char) (k : ShipKind)
    (hd : chooseDelim tag = some (d, k))
    (hlen : (splitOn (fun c => c == d) tag).length ≠ 2) :
    visKeepShip tag = Except.error VisDropError.wrongArity ∧
    ∀ kf pre post c, visFreqs kf (pre ++ (tag, c) :: post) = visFreqs kf (pre ++ post) := by
  have hship : shipFromStr tag =
      Except.ok ⟨sortNames ((splitOn (fun c => c == d) tag).map cleanName), k⟩ := by
    unfold shipFromStr
    rw [hd]
  have hkeep : visKeepShip tag = Except.error VisDropError.wrongArity := by
    have hlen2 : ¬ (sortNames ((splitOn (fun c => c == d) tag).map cleanName)).length = 2 := by
      rw [length_sortNames, List.length_map]
      exact hlen
    unfold visKeepShip
    rw [hship]
    show (if (sortNames ((splitOn (fun c => c == d) tag).map cleanName)).length = 2
        then Except.ok (Ship.mk (sortNames ((splitOn (fun c => c == d) tag).map cleanName)) k)
        else Except.error VisDropError.wrongArity) = Except.error VisDropError.wrongArity
    rw [if_neg hlen2]
  refine ⟨hkeep, ?_⟩
  intro kf pre post c
  unfold visFreqs
  rw [List.filterMap_append, List.filterMap_append, List.filterMap_cons]
  have hnone : (visKeepShip tag).toOption.map (fun s => (s, c)) = none := by
    rw [hkeep]
    rfl
  rw [hnone]

/-- Witness for C7 at the spec's three-character example. -/
theorem c7_arity_rejection_witness :
    visKeepShip "A/B/C".data = Except.error VisDropError.wrongArity ∧
    visFreqs ShipKind.Romantic ([("X/Y".data, 2)] ++ ("A/B/C".data, 7) :: [("P/Q".data, 1)]) =
      visFreqs ShipKind.Romantic ([("X/Y".data, 2)] ++ [("P/Q".data, 1)]) :=
  ⟨(c7_arity_rejection "A/B/C".data '/' ShipKind.Romantic rfl (by decide)).1,
   (c7_arity_rejection "A/B/C".data '/' ShipKind.Romantic rfl (by decide)).2
     ShipKind.Romantic [("X/Y".data, 2)] [("P/Q".data, 1)] 7⟩

/-- C8 (amended): in `vis.rs Ship::from_str`, a parenthesized fandom
qualifier on each candidate is stripped (the candidate is truncated at its
first `(` and trimmed), so qualified and unqualified spellings of the same
pair parse to the same Ship. The cited `ships.rs ship_to_characters`
instead truncates the whole tag at the first `(` before splitting, so there
a qualifier on the first candidate makes the tag a dropped arity-1 failure
(see the counterexample). -/
theorem c8_fandom_qualifier (c1 c2 f1 f2 : Str)
    (h1 : containsChar c1 '/' = false) (h2 : containsChar c2 '/' = false)
    (hf1 : containsChar f1 '/' = false) (hf2 : containsChar f2 '/' = false)
    (hp1 : containsChar c1 '(' = false) (hp2 : containsChar c2 '(' = false) :
    shipFromStr ((c1 ++ '(' :: (f1 ++ [')'])) ++ '/' :: (c2 ++ '(' :: (f2 ++ [')']))) =
      shipFromStr (c1 ++ '/' :: c2) := by
  have hA : ∀ c ∈ c1 ++ '(' :: (f1 ++ [')']), (c == '/') = false := by
    intro c hc
    rcases List.mem_append.mp hc with h | h
    · exact not_delim_of_not_contains h1 c h
    · rcases List.mem_cons.mp h with rfl | h
      · decide
      · rcases List.mem_append.mp h with h | h
        · exact not_delim_of_not_contains hf1 c h
        · rcases List.mem_cons.mp h with rfl | h
          · decide
          · cases h
  have hB : ∀ c ∈ c2 ++ '(' :: (f2 ++ [')']), (c == '/') = false := by
    intro c hc
    rcases List.mem_append.mp hc with h | h
    · exact not_delim_of_not_contains h2 c h
    · rcases List.mem_cons.mp h with rfl | h
      · decide
      · rcases List.mem_append.mp h with h | h
        · exact not_delim_of_not_contains hf2 c h
        · rcases List.mem_cons.mp h with rfl | h
          · decide
          · cases h
  rw [shipFromStr_pair _ _ hA hB,
    shipFromStr_pair c1 c2 (not_delim_of_not_contains h1) (not_delim_of_not_contains h2),
    cleanName_paren c1 (f1 ++ [')']) hp1, cleanName_paren c2 (f2 ++ [')']) hp2]

/-- Counterexample to C8 as stated for the cited `ships.rs` parser: there
the whole tag is truncated at the first `(` before splitting, so the
qualified spelling loses its delimiter, splits to a single candidate, and is
dropped — it does not parse to the same value as the unqualified tag. -/
theorem c8_ships_whole_tag_truncation_counterexample :
    shipToCharacters "Alice (Wonderland)/Bob (Wonderland)".data = none ∧
    shipToCharacters "Alice/Bob".data =
      some (("Alice".data, "Bob".data), ShipKind.Romantic) ∧
    shipToCharacters "Alice (Wonderland)/Bob (Wonderland)".data ≠
      shipToCharacters "Alice/Bob".data :=
  ⟨rfl, rfl, by decide⟩

/-- Witness for C8 at the spec's example. -/
theorem c8_fandom_qualifier_witness :
    shipFromStr "Alice (Wonderland)/Bob (Wonderland)".data = shipFromStr "Alice /Bob ".data ∧
    shipFromStr "Alice /Bob ".data = shipFromStr "Alice/Bob".data :=
  ⟨c8_fandom_qualifier "Alice ".data "Bob ".data "Wonderland".data "Wonderland".data
      (by decide) (by decide) (by decide) (by decide) (by decide) (by decide),
   rfl⟩

/-! ## Matrix lemmas for claim C1 -/

/-- A matrix is an `n` by `n` square of naturals. -/
def IsSquare (m : List (List Nat)) (n : Nat) : Prop :=
  m.length = n ∧ ∀ r ∈ m, r.length = n

theorem square_row_len {m : List (List Nat)} {n i : Nat} (h : IsSquare m n) (hi : i < n) :
    (m.getD i []).length = n := by
  have hlt : i < m.length := by rw [h.1]; exact hi
  rw [List.getD_eq_getElem m [] hlt]
  exact h.2 m[i] (List.getElem_mem hlt)

theorem zeroMatrix_square (n : Nat) : IsSquare (zeroMatrix n) n := by
  constructor
  · exact List.length_replicate n _
  · intro r hr
    rw [List.eq_of_mem_replicate hr]
    exact List.length_replicate n _

theorem mget_zeroMatrix (n a b : Nat) : mget (zeroMatrix n) a b = 0 := by
  unfold mget zeroMatrix
  rcases Nat.lt_or_ge a n with h | h
  · rw [getD_replicate_lt n a _ _ h]
    rcases Nat.lt_or_ge b n with h2 | h2
    · exact getD_replicate_lt n b _ _ h2
    · exact getD_oob _ b 0 (by simpa using h2)
  · rw [getD_oob _ a [] (by simpa using h)]
    rfl

theorem maddAt_square {m : List (List Nat)} {n : Nat} (i j c : Nat) (h : IsSquare m n)
    (hi : i < n) : IsSquare (maddAt m i j c) n := by
  constructor
  · rw [maddAt, List.length_set, h.1]
  · intro r hr
    rcases List.mem_or_eq_of_mem_set hr with hm | rfl
    · exact h.2 r hm
    · rw [List.length_set]
      exact square_row_len h hi

theorem mget_maddAt {m : List (List Nat)} {n : Nat} (i j c : Nat) (h : IsSquare m n)
    (hi : i < n) (hj : j < n) (a b : Nat) :
    mget (maddAt m i j c) a b = mget m a b + (if a = i ∧ b = j then c else 0) := by
  have hilen : i < m.length := by rw [h.1]; exact hi
  have hjlen : j < (m.getD i []).length := by rw [square_row_len h hi]; exact hj
  unfold maddAt mget
  by_cases hai : a = i
  · subst hai
    rw [getD_set_self m a _ [] hilen]
    by_cases hbj : b = j
    · subst hbj
      rw [getD_set_self _ b _ 0 hjlen]
      simp [mget]
    · rw [getD_set_ne _ j b _ 0 (fun he => hbj (he.symm))]
      simp [hbj]
  · rw [getD_set_ne m i a _ [] (fun he => hai (he.symm))]
    simp [hai]

theorem visMatrixStep_square {names : List Str} {n : Nat} {m : List (List Nat)}
    (sc : Ship × Nat) (h : IsSquare m n)
    (h0 : idxOf names (sc.1.characters.getD 0 []) < n)
    (h1 : idxOf names (sc.1.characters.getD 1 []) < n) :
    IsSquare (visMatrixStep names m sc) n :=
  maddAt_square _ _ _ (maddAt_square _ _ _ h h0) h1

theorem visMatrixStep_symm {names : List Str} {n : Nat} {m : List (List Nat)}
    (sc : Ship × Nat) (h : IsSquare m n)
    (h0 : idxOf names (sc.1.characters.getD 0 []) < n)
    (h1 : idxOf names (sc.1.characters.getD 1 []) < n)
    (hsym : ∀ a b, mget m a b = mget m b a) :
    ∀ a b, mget (visMatrixStep names m sc) a b = mget (visMatrixStep names m sc) b a := by
  intro a b
  unfold visMatrixStep
  rw [mget_maddAt _ _ _ (maddAt_square _ _ _ h h0) h1 h0 a b,
    mget_maddAt _ _ _ (maddAt_square _ _ _ h h0) h1 h0 b a,
    mget_maddAt _ _ _ h h0 h1 a b, mget_maddAt _ _ _ h h0 h1 b a, hsym a b]
  split_ifs <;> omega

theorem visMatrixStep_diag {names : List Str} {n : Nat} {m : List (List Nat)}
    (sc : Ship × Nat) (h : IsSquare m n)
    (h0 : idxOf names (sc.1.characters.getD 0 []) < n)
    (h1 : idxOf names (sc.1.characters.getD 1 []) < n)
    (hne : idxOf names (sc.1.characters.getD 0 []) ≠ idxOf names (sc.1.characters.getD 1 []))
    (hdiag : ∀ a, mget m a a = 0) :
    ∀ a, mget (visMatrixStep names m sc) a a = 0 := by
  intro a
  unfold visMatrixStep
  rw [mget_maddAt _ _ _ (maddAt_square _ _ _ h h0) h1 h0 a a,
    mget_maddAt _ _ _ h h0 h1 a a, hdiag a]
  split_ifs <;> omega

theorem visMatrix_foldl_symm (names : List Str) (n : Nat) :
    ∀ (freqs : List (Ship × Nat)) (m : List (List Nat)), IsSquare m n →
      (∀ a b, mget m a b = mget m b a) →
      (∀ sc ∈ freqs, idxOf names (sc.1.characters.getD 0 []) < n ∧
        idxOf names (sc.1.characters.getD 1 []) < n) →
      IsSquare (freqs.foldl (visMatrixStep names) m) n ∧
        ∀ a b, mget (freqs.foldl (visMatrixStep names) m) a b =
          mget (freqs.foldl (visMatrixStep names) m) b a
  | [], m, hsq, hsym, _ => ⟨hsq, hsym⟩
  | sc :: rest, m, hsq, hsym, hidx => by
    have h0 := (hidx sc (List.mem_cons_self sc rest)).1
    have h1 := (hidx sc (List.mem_cons_self sc rest)).2
    exact visMatrix_foldl_symm names n rest (visMatrixStep names m sc)
      (visMatrixStep_square sc hsq h0 h1)
      (visMatrixStep_symm sc hsq h0 h1 hsym)
      (fun x hx => hidx x (List.mem_cons_of_mem sc hx))

theorem visMatrix_foldl_diag (names : List Str) (n : Nat) :
    ∀ (freqs : List (Ship × Nat)) (m : List (List Nat)), IsSquare m n →
      (∀ a, mget m a a = 0) →
      (∀ sc ∈ freqs, idxOf names (sc.1.characters.getD 0 []) < n ∧
        idxOf names (sc.1.characters.getD 1 []) < n ∧
        idxOf names (sc.1.characters.getD 0 []) ≠ idxOf names (sc.1.characters.getD 1 [])) →
      ∀ a, mget (freqs.foldl (visMatrixStep names) m) a a = 0
  | [], _, _, hdiag, _ => hdiag
  | sc :: rest, m, hsq, hdiag, hidx => by
    obtain ⟨h0, h1, hne⟩ := hidx sc (List.mem_cons_self sc rest)
    exact visMatrix_foldl_diag names n rest (visMatrixStep names m sc)
      (visMatrixStep_square sc hsq h0 h1)
      (visMatrixStep_diag sc hsq h0 h1 hne hdiag)
      (fun x hx => hidx x (List.mem_cons_of_mem sc hx))

theorem visKeepShip_ok_len {t : Str} {s : Ship} (h : visKeepShip t = Except.ok s) :
    s.characters.length = 2 := by
  unfold visKeepShip at h
  cases hf : shipFromStr t with
  | error e => rw [hf] at h; exact Except.noConfusion h
  | ok s' =>
    rw [hf] at h
    change (if s'.characters.length = 2 then Except.ok s'
      else Except.error VisDropError.wrongArity) = Except.ok s at h
    by_cases hl : s'.characters.length = 2
    · rw [if_pos hl] at h
      cases h
      exact hl
    · rw [if_neg hl] at h
      exact Except.noConfusion h

theorem mem_visFreqs_len {kf : ShipKind} {rs : List (Str × Nat)} {sc : Ship × Nat}
    (h : sc ∈ visFreqs kf rs) : sc.1.characters.length = 2 := by
  unfold visFreqs at h
  have h1 := (List.mem_filter.mp h).1
  obtain ⟨r, _, hr⟩ := List.mem_filterMap.mp h1
  cases hk : visKeepShip r.1 with
  | error e => rw [hk] at hr; exact Option.noConfusion hr
  | ok s =>
    rw [hk] at hr
    simp only [Except.toOption, Option.map_some'] at hr
    cases hr
    exact visKeepShip_ok_len hk

theorem mem_characters_mem_allShipCharacters {freqs : List (Ship × Nat)} :
    ∀ {sc : Ship × Nat}, sc ∈ freqs → ∀ {x : Str}, x ∈ sc.1.characters →
      x ∈ allShipCharacters freqs := by
  induction freqs with
  | nil => intro sc h; exact absurd h (List.not_mem_nil sc)
  | cons hd tl ih =>
    intro sc hsc x hx
    show x ∈ hd.1.characters ++ allShipCharacters tl
    rcases List.mem_cons.mp hsc with rfl | hm
    · exact List.mem_append.mpr (Or.inl hx)
    · exact List.mem_append.mpr (Or.inr (ih hm hx))

theorem mem_visNames {freqs : List (Ship × Nat)} {sc : Ship × Nat} (hsc : sc ∈ freqs)
    {x : Str} (hx : x ∈ sc.1.characters) : x ∈ visNames freqs :=
  mem_foldr_insertUnique x _ (mem_characters_mem_allShipCharacters hsc hx)

theorem getD_mem_of_len_two {l : List Str} (h : l.length = 2) :
    l.getD 0 [] ∈ l ∧ l.getD 1 [] ∈ l := by
  match l, h with
  | [a, b], _ =>
    exact ⟨List.mem_cons_self a [b], List.mem_cons_of_mem a (List.mem_cons_self b [])⟩

/-- C1 (amended): for every aggregation input the `vis.rs` co-occurrence
matrix is square over the names list and symmetric; the diagonal is zero
provided no retained ship pairs a character name with itself (a self-pair
tag such as `"Alice/Alice"` passes the arity-2 filter and puts a nonzero
value on the diagonal, so the unconditional diagonal claim fails). -/
theorem c1_matrix_properties (k : ShipKind) (rs : List (Str × Nat)) :
    IsSquare (visMatrix k rs) (visNames (visFreqs k rs)).length ∧
    (∀ i j, mget (visMatrix k rs) i j = mget (visMatrix k rs) j i) ∧
    ((∀ sc ∈ visFreqs k rs, sc.1.characters.getD 0 [] ≠ sc.1.characters.getD 1 []) →
      ∀ i, mget (visMatrix k rs) i i = 0) := by
  have hidx : ∀ sc ∈ visFreqs k rs,
      idxOf (visNames (visFreqs k rs)) (sc.1.characters.getD 0 []) <
        (visNames (visFreqs k rs)).length ∧
      idxOf (visNames (visFreqs k rs)) (sc.1.characters.getD 1 []) <
        (visNames (visFreqs k rs)).length := by
    intro sc hsc
    obtain ⟨hm0, hm1⟩ := getD_mem_of_len_two (mem_visFreqs_len hsc)
    exact ⟨idxOf_lt_of_mem _ _ (mem_visNames hsc hm0),
      idxOf_lt_of_mem _ _ (mem_visNames hsc hm1)⟩
  have hmain := visMatrix_foldl_symm (visNames (visFreqs k rs))
    (visNames (visFreqs k rs)).length (visFreqs k rs)
    (zeroMatrix (visNames (visFreqs k rs)).length)
    (zeroMatrix_square _)
    (fun a b => by rw [mget_zeroMatrix, mget_zeroMatrix]) hidx
  refine ⟨hmain.1, hmain.2, ?_⟩
  intro hdist i
  have hidx3 : ∀ sc ∈ visFreqs k rs,
      idxOf (visNames (visFreqs k rs)) (sc.1.characters.getD 0 []) <
        (visNames (visFreqs k rs)).length ∧
      idxOf (visNames (visFreqs k rs)) (sc.1.characters.getD 1 []) <
        (visNames (visFreqs k rs)).length ∧
      idxOf (visNames (visFreqs k rs)) (sc.1.characters.getD 0 []) ≠
        idxOf (visNames (visFreqs k rs)) (sc.1.characters.getD 1 []) := by
    intro sc hsc
    obtain ⟨h0, h1⟩ := hidx sc hsc
    refine ⟨h0, h1, ?_⟩
    intro he
    obtain ⟨hm0, hm1⟩ := getD_mem_of_len_two (mem_visFreqs_len hsc)
    exact hdist sc hsc
      (idxOf_inj _ _ _ (mem_visNames hsc hm0) (mem_visNames hsc hm1) he)
  exact visMatrix_foldl_diag (visNames (visFreqs k rs)) (visNames (visFreqs k rs)).length
    (visFreqs k rs) (zeroMatrix (visNames (visFreqs k rs)).length)
    (zeroMatrix_square _) (fun a => mget_zeroMatrix _ a a) hidx3 i

/-- Witness for C1 on a concrete aggregation input. -/
theorem c1_matrix_properties_witness :
    mget (visMatrix ShipKind.Romantic [("Alice/Bob".data, 3)]) 0 1 =
      mget (visMatrix ShipKind.Romantic [("Alice/Bob".data, 3)]) 1 0 ∧
    mget (visMatrix ShipKind.Romantic [("Alice/Bob".data, 3)]) 0 0 = 0 ∧
    (visMatrix ShipKind.Romantic [("Alice/Bob".data, 3)]).length =
      (visNames (visFreqs ShipKind.Romantic [("Alice/Bob".data, 3)])).length :=
  ⟨(c1_matrix_properties ShipKind.Romantic [("Alice/Bob".data, 3)]).2.1 0 1,
   (c1_matrix_properties ShipKind.Romantic [("Alice/Bob".data, 3)]).2.2 (by decide) 0,
   (c1_matrix_properties ShipKind.Romantic [("Alice/Bob".data, 3)]).1.1⟩

/-- Counterexample to C1 as stated: the self-pair tag `"Alice/Alice"` is
retained (it has two characters) and the resulting diagonal entry is 2, not
zero. -/
theorem c1_diagonal_counterexample :
    mget (visMatrix ShipKind.Romantic [("Alice/Alice".data, 1)]) 0 0 = 2 ∧
    mget (visMatrix ShipKind.Romantic [("Alice/Alice".data, 1)]) 0 0 ≠ 0 :=
  ⟨rfl, by decide⟩

/-- C4 (amended): in `vis.rs`, raw tags that canonicalize to the same Ship
have their counts merged by summation into both symmetric matrix cells
(`+=` accumulation); the older `ships.rs` binary instead deduplicates such
tags keeping only the highest single count, which the counterexample
records. -/
theorem c4_vis_summation (names : List Str) (n : Nat) (m : List (List Nat)) (s : Ship)
    (c c' : Nat) (hsq : IsSquare m n)
    (h0 : idxOf names (s.characters.getD 0 []) < n)
    (h1 : idxOf names (s.characters.getD 1 []) < n)
    (hne : idxOf names (s.characters.getD 0 []) ≠ idxOf names (s.characters.getD 1 [])) :
    (mget (visMatrixStep names (visMatrixStep names m (s, c)) (s, c'))
        (idxOf names (s.characters.getD 0 [])) (idxOf names (s.characters.getD 1 [])) =
      mget m (idxOf names (s.characters.getD 0 [])) (idxOf names (s.characters.getD 1 [])) +
        (c + c')) ∧
    (mget (visMatrixStep names (visMatrixStep names m (s, c)) (s, c'))
        (idxOf names (s.characters.getD 1 [])) (idxOf names (s.characters.getD 0 [])) =
      mget m (idxOf names (s.characters.getD 1 [])) (idxOf names (s.characters.getD 0 [])) +
        (c + c')) ∧
    visMatrix ShipKind.Romantic [("Alice/Bob".data, 3), ("Bob/Alice".data, 5)] =
      [[0, 8], [8, 0]] := by
  have hsq1 : IsSquare (maddAt m (idxOf names (s.characters.getD 0 []))
      (idxOf names (s.characters.getD 1 [])) c) n := maddAt_square _ _ _ hsq h0
  have hsq2 : IsSquare (maddAt (maddAt m (idxOf names (s.characters.getD 0 []))
      (idxOf names (s.characters.getD 1 [])) c) (idxOf names (s.characters.getD 1 []))
      (idxOf names (s.characters.getD 0 [])) c) n := maddAt_square _ _ _ hsq1 h1
  have hsq3 : IsSquare (maddAt (maddAt (maddAt m (idxOf names (s.characters.getD 0 []))
      (idxOf names (s.characters.getD 1 [])) c) (idxOf names (s.characters.getD 1 []))
      (idxOf names (s.characters.getD 0 [])) c) (idxOf names (s.characters.getD 0 []))
      (idxOf names (s.characters.getD 1 [])) c') n := maddAt_square _ _ _ hsq2 h0
  refine ⟨?_, ?_, rfl⟩
  · simp only [visMatrixStep]
    rw [mget_maddAt _ _ c' hsq3 h1 h0, mget_maddAt _ _ c' hsq2 h0 h1,
      mget_maddAt _ _ c hsq1 h1 h0, mget_maddAt _ _ c hsq h0 h1]
    split_ifs <;> omega
  · simp only [visMatrixStep]
    rw [mget_maddAt _ _ c' hsq3 h1 h0, mget_maddAt _ _ c' hsq2 h0 h1,
      mget_maddAt _ _ c hsq1 h1 h0, mget_maddAt _ _ c hsq h0 h1]
    split_ifs <;> omega

/-- Witness for C4 on the spec's duplicate pair, starting from the zero
matrix of the two-name list. -/
theorem c4_vis_summation_witness :
    mget (visMatrixStep ["Alice".data, "Bob".data]
        (visMatrixStep ["Alice".data, "Bob".data] (zeroMatrix 2)
          (Ship.mk ["Alice".data, "Bob".data] ShipKind.Romantic, 3))
        (Ship.mk ["Alice".data, "Bob".data] ShipKind.Romantic, 5)) 0 1 =
      mget (zeroMatrix 2) 0 1 + (3 + 5) ∧
    visMatrix ShipKind.Romantic [("Alice/Bob".data, 3), ("Bob/Alice".data, 5)] =
      [[0, 8], [8, 0]] := by
  have h := c4_vis_summation ["Alice".data, "Bob".data] 2 (zeroMatrix 2)
    (Ship.mk ["Alice".data, "Bob".data] ShipKind.Romantic) 3 5
    (zeroMatrix_square 2) (by decide) (by decide) (by decide)
  exact ⟨h.1, h.2.2⟩

/-- Counterexample to C4 as stated for the cited `ships.rs` aggregator: the
duplicate pair `[("Alice/Bob", 3), ("Bob/Alice", 5)]` is deduplicated to the
single highest count, so the matrix holds 5, not the claimed merged 8. -/
theorem c4_ships_overwrite_counterexample :
    mget (shipsMatrix ShipKind.Romantic
      [("Alice/Bob".data, 3), ("Bob/Alice".data, 5)]) 0 1 = 5 ∧
    mget (shipsMatrix ShipKind.Romantic
      [("Alice/Bob".data, 3), ("Bob/Alice".data, 5)]) 0 1 ≠ 8 ∧
    mget (shipsMatrix ShipKind.Romantic
      [("Alice/Bob".data, 3), ("Bob/Alice".data, 5)]) 1 0 = 5 :=
  ⟨rfl, by decide, rfl⟩

/-- C9: a tag with a delimiter but an empty side (here `"/Bob"`) parses
successfully to a two-character Ship whose first character is the empty
string; it passes the arity-2 filter, and the empty string reaches the
aggregator's names list. -/
theorem c9_empty_character_name :
    shipFromStr "/Bob".data = Except.ok ⟨[[], "Bob".data], ShipKind.Romantic⟩ ∧
    visKeepShip "/Bob".data = Except.ok ⟨[[], "Bob".data], ShipKind.Romantic⟩ ∧
    ([] : Str) ∈ visNames (visFreqs ShipKind.Romantic [("/Bob".data, 1)]) ∧
    visNames (visFreqs ShipKind.Romantic [("/Bob".data, 1)]) = [[], "Bob".data] :=
  ⟨rfl, rfl, by decide, rfl⟩

/-! ## Lemmas about the page extractor -/

theorem obind_ok {α β : Type} {o : Outcome α} {f : α → Outcome β} {b : β}
    (h : obind o f = Outcome.ok b) : ∃ a, o = Outcome.ok a ∧ f a = Outcome.ok b := by
  cases o with
  | ok a => exact ⟨a, rfl, h⟩
  | err e => exact Outcome.noConfusion h
  | panic m => exact Outcome.noConfusion h

theorem stripLeading_append : ∀ (p s : Str), stripLeading p (p ++ s) = some s
  | [], _ => rfl
  | c :: ps, s => by
    show (if c = c then stripLeading ps (ps ++ s) else none) = some s
    rw [if_pos rfl]
    exact stripLeading_append ps s

theorem stripLeading_some : ∀ (p a s : Str), stripLeading p a = some s → a = p ++ s
  | [], a, s, h => by cases h; rfl
  | _ :: _, [], _, h => Option.noConfusion h
  | c :: ps, b :: bs, s, h => by
    by_cases hbc : b = c
    · subst hbc
      have h' : stripLeading ps bs = some s := by
        have hr : stripLeading (b :: ps) (b :: bs) =
            (if b = b then stripLeading ps bs else none) := rfl
        rw [hr, if_pos rfl] at h
        exact h
      rw [List.cons_append, stripLeading_some ps bs s h']
    · have hr : stripLeading (c :: ps) (b :: bs) =
          (if b = c then stripLeading ps bs else none) := rfl
      rw [hr, if_neg hbc] at h
      exact Option.noConfusion h

theorem stripLeading_eq_none_iff (p a : Str) :
    stripLeading p a = none ↔ ∀ s, a ≠ p ++ s := by
  constructor
  · intro h s he
    rw [he, stripLeading_append] at h
    exact Option.noConfusion h
  · intro h
    cases hs : stripLeading p a with
    | none => rfl
    | some s => exact absurd (stripLeading_some p a s hs) (h s)

theorem extractWork_ok_fields {e : WorkElement} {w : Work}
    (h : extractWork e = Outcome.ok w) :
    idOutcome e = Outcome.ok w.id ∧
    w.author = (nextText (e.title_author.drop 1)).toOption ∧
    w.language = (nextText e.language).getD [] ∧
    w.words = (nextNumber e.words).getD 0 ∧
    w.kudos = (nextNumber e.kudos).getD 0 ∧
    w.hits = (nextNumber e.hits).getD 0 := by
  unfold extractWork at h
  obtain ⟨id, hid, h⟩ := obind_ok h
  obtain ⟨title, htitle, h⟩ := obind_ok h
  obtain ⟨rels, hrels, h⟩ := obind_ok h
  obtain ⟨chars, hchars, h⟩ := obind_ok h
  obtain ⟨frees, hfrees, h⟩ := obind_ok h
  obtain ⟨dateText, hdate, h⟩ := obind_ok h
  cases hp : parseDate dateText with
  | none => rw [hp] at h; exact Outcome.noConfusion h
  | some date =>
    rw [hp] at h
    cases h
    exact ⟨hid, rfl, rfl, rfl, rfl, rfl⟩

theorem extractWork_err_of_id {e : WorkElement} {E : List Str}
    (h : idOutcome e = Outcome.err E) : extractWork e = Outcome.err E := by
  show obind (idOutcome e) _ = _
  rw [h]
  rfl

theorem searchPageToWorks_cons_ok {e : WorkElement} {page : List WorkElement}
    {works : List Work} (h : searchPageToWorks (e :: page) = Outcome.ok works) :
    ∃ w ws, works = w :: ws ∧ extractWork e = Outcome.ok w ∧
      searchPageToWorks page = Outcome.ok ws := by
  have h' : obind (extractWork e) (fun w =>
      obind (searchPageToWorks page) (fun ws => Outcome.ok (w :: ws))) = Outcome.ok works := h
  obtain ⟨w, hw, h'⟩ := obind_ok h'
  obtain ⟨ws, hws, h'⟩ := obind_ok h'
  cases h'
  exact ⟨w, ws, rfl, hw, hws⟩

theorem searchPageToWorks_cons_err {e : WorkElement} (page : List WorkElement)
    {E : List Str} (h : extractWork e = Outcome.err E) :
    searchPageToWorks (e :: page) = Outcome.err E := by
  show obind (extractWork e) _ = _
  rw [h]
  rfl

/-! ## Claims C2, C3 and C10 -/

/-- C2: missing structural elements (id attribute, title element, date
element) make the whole page's extraction return a descriptive error naming
the field, also when the bad listing is not the first one — but a date text
that is present and malformed does NOT return an error: it hits the
source's `.expect("unexpected date format")` and panics, contradicting the
claim's "never panics". -/
theorem c2_structural_errors_and_date_panic :
    searchPageToWorks [{ goodElement with id_attr := none }] =
      Outcome.err ["work to have id".data] ∧
    searchPageToWorks [{ goodElement with title_author := [] }] =
      Outcome.err ["title".data, "selector to find element".data] ∧
    searchPageToWorks [{ goodElement with datetime := [] }] =
      Outcome.err ["date".data, "selector to find element".data] ∧
    searchPageToWorks [goodElement, { goodElement with id_attr := none }] =
      Outcome.err ["work to have id".data] ∧
    parseDate "05 Foo 2020".data = none ∧
    searchPageToWorks [{ goodElement with datetime := [some "05 Foo 2020".data] }] =
      Outcome.panic "unexpected date format".data :=
  ⟨rfl, rfl, rfl, rfl, rfl, rfl⟩

/-- C3 (amended): an absent numeric statistic element defaults to 0 and
thousands separators are stripped before parsing; `next_number` does return
distinct errors for "element missing" and "text unparseable", but
`search_page_to_works` collapses both with `unwrap_or(0)`, so a present but
unparseable numeric text is also silently defaulted to 0 at extraction
level. -/
theorem c3_numeric_stats (e : WorkElement) (page : List WorkElement)
    (works : List Work) (w : Work) (ws : List Work)
    (hok : searchPageToWorks (e :: page) = Outcome.ok works) (hw : works = w :: ws) :
    (e.kudos = [] → w.kudos = 0) ∧
    (e.kudos = [some "1,234".data] → w.kudos = 1234) ∧
    (∀ t, e.kudos = [some t] →
      parseU32 (t.filter (fun c => c != ',')) = none → w.kudos = 0) ∧
    nextNumber [] = Outcome.err ["selector to find element".data] ∧
    nextNumber [some "12a".data] = Outcome.err ["failed to parse number".data] ∧
    "selector to find element".data ≠ "failed to parse number".data := by
  obtain ⟨w', ws', hws', hw', _⟩ := searchPageToWorks_cons_ok hok
  rw [hw] at hws'
  injection hws' with h1 h2
  subst h1
  have hk := (extractWork_ok_fields hw').2.2.2.2.1
  refine ⟨?_, ?_, ?_, rfl, rfl, by decide⟩
  · intro h
    rw [h] at hk
    exact hk
  · intro h
    rw [h] at hk
    exact hk
  · intro t ht hp
    rw [ht] at hk
    have hnn : nextNumber [some t] = Outcome.err ["failed to parse number".data] := by
      show (match parseU32 (t.filter (fun c => c != ',')) with
        | some n => Outcome.ok n
        | none => Outcome.err ["failed to parse number".data]) =
        Outcome.err ["failed to parse number".data]
      rw [hp]
    rw [hnn] at hk
    exact hk

/-- Witness for C3: the fully well-formed listing with kudos text "1,234"
extracts to kudos 1234, and a missing element is a distinct `next_number`
error. -/
theorem c3_numeric_stats_witness :
    goodWork.kudos = 1234 ∧
    nextNumber [] = Outcome.err ["selector to find element".data] :=
  ⟨(c3_numeric_stats goodElement [] [goodWork] goodWork [] rfl rfl).2.1 rfl,
   (c3_numeric_stats goodElement [] [goodWork] goodWork [] rfl rfl).2.2.2.1⟩

/-- Counterexample to C3 as stated: a kudos element that is present with
unparseable text "12a" does not make extraction fail — the page extracts
successfully and the kudos statistic is silently defaulted to 0. -/
theorem c3_unparseable_defaulted_counterexample :
    parseU32 ("12a".data.filter (fun c => c != ',')) = none ∧
    searchPageToWorks [{ goodElement with kudos := [some "12a".data] }] =
      Outcome.ok [{ goodWork with kudos := 0 }] :=
  ⟨rfl, rfl⟩

/-- C10: extraction requires the id attribute to start with `work_`; the
returned `Work.id` is the attribute with that lead removed, and an id
attribute lacking it fails the whole page with the prefix error. -/
theorem c10_id_attribute_policy (e : WorkElement) (page : List WorkElement) (a : Str)
    (ha : e.id_attr = some a) :
    (stripLeading "work_".data a = none ↔ ∀ s, a ≠ "work_".data ++ s) ∧
    (stripLeading "work_".data a = none →
      searchPageToWorks (e :: page) = Outcome.err ["work id to have prefix".data]) ∧
    (∀ s, a = "work_".data ++ s → ∀ works,
      searchPageToWorks (e :: page) = Outcome.ok works →
      (works.map (fun w => w.id)).head? = some s) := by
  refine ⟨stripLeading_eq_none_iff _ a, ?_, ?_⟩
  · intro h
    have hid : idOutcome e = Outcome.err ["work id to have prefix".data] := by
      unfold idOutcome
      rw [ha]
      show (match stripLeading "work_".data a with
        | none => Outcome.err ["work id to have prefix".data]
        | some s => Outcome.ok s) = Outcome.err ["work id to have prefix".data]
      rw [h]
    exact searchPageToWorks_cons_err page (extractWork_err_of_id hid)
  · intro s hs works hok
    obtain ⟨w, ws, rfl, hw, _⟩ := searchPageToWorks_cons_ok hok
    have hid := (extractWork_ok_fields hw).1
    have hids : idOutcome e = Outcome.ok s := by
      unfold idOutcome
      rw [ha]
      show (match stripLeading "work_".data a with
        | none => Outcome.err ["work id to have prefix".data]
        | some s => Outcome.ok s) = Outcome.ok s
      rw [hs, stripLeading_append]
    rw [hids] at hid
    injection hid with h3
    rw [h3]
    rfl

/-- Witness for C10: the well-formed listing's id `work_123` extracts to id
`123`, and a listing whose id attribute is `oops` fails the page with the
prefix error. -/
theorem c10_id_attribute_policy_witness :
    ([goodWork].map (fun w => w.id)).head? = some "123".data ∧
    searchPageToWorks [{ goodElement with id_attr := some "oops".data }] =
      Outcome.err ["work id to have prefix".data] :=
  ⟨(c10_id_attribute_policy goodElement [] "work_123".data rfl).2.2
      "123".data rfl [goodWork] rfl,
   (c10_id_attribute_policy { goodElement with id_attr := some "oops".data } []
      "oops".data rfl).2.1 rfl⟩

end FandomData
